import Mathlib

/-!
# Verification of `multiflexxlib` (ub.py)

Shallow embedding of the coordinate-conversion core of `multiflexxlib`
(`src/multiflexxlib/ub.py`) and proofs about it.  Python floats are embedded
as real numbers, numpy 3x3 matrices as `Matrix (Fin 3) (Fin 3) ℝ`, numpy 1-D
rows as `List ℝ`, and fallible operations (raised exceptions, numpy broadcast
errors) as `Option`/`Except` results.  Exact rational/string computations
(axis labelling) are embedded over `ℚ` and `String` so that they can be
evaluated by the kernel.
-/

namespace Multiflexx

/-! ## Triangle solver (ub.py, `find_triangle_angles`, lines 314-331) -/

/-- `aa = (b ** 2 + c ** 2 - a ** 2) / (2 * b * c)` (ub.py line 322),
the law-of-cosines cosine of the angle opposite edge `a`. -/
noncomputable def tri_aa (a b c : ℝ) : ℝ := (b ^ 2 + c ^ 2 - a ^ 2) / (2 * b * c)

/-- `bb = (a ** 2 + c ** 2 - b ** 2) / (2 * a * c)` (ub.py line 323). -/
noncomputable def tri_bb (a b c : ℝ) : ℝ := (a ^ 2 + c ^ 2 - b ^ 2) / (2 * a * c)

/-- `cc = (a ** 2 + b ** 2 - c ** 2) / (2 * a * b)` (ub.py line 324). -/
noncomputable def tri_cc (a b c : ℝ) : ℝ := (a ^ 2 + b ^ 2 - c ^ 2) / (2 * a * b)

open scoped Classical in
/-- `find_triangle_angles` (ub.py lines 314-331): computes the three
law-of-cosines cosines; raises `ValueError('Scattering triangle does not
close.')` (modelled by `none`) when any cosine magnitude strictly exceeds 1,
otherwise returns `(arccos aa, arccos bb, arccos cc)`. -/
noncomputable def find_triangle_angles (a b c : ℝ) : Option (ℝ × ℝ × ℝ) :=
  if 1 < |tri_aa a b c| ∨ 1 < |tri_bb a b c| ∨ 1 < |tri_cc a b c| then
    none
  else
    some (Real.arccos (tri_aa a b c), Real.arccos (tri_bb a b c),
      Real.arccos (tri_cc a b c))

/-! ## Constructor plot-axis defaulting (ub.py, `UBMatrix.__init__`, lines 43-50) -/

/-- The plot-axis selection of `UBMatrix.__init__` (ub.py lines 43-50):
`if plot_x is None or plot_y is None:` both `_plot_x` and `_plot_y_nominal`
fall back to `hkl1`/`hkl2`; only when both are supplied are they used.
Returns the pair `(_plot_x, _plot_y_nominal)`. -/
def init_plot_axes (hkl1 hkl2 : List ℚ) (plot_x plot_y : Option (List ℚ)) :
    List ℚ × List ℚ :=
  if plot_x = none ∨ plot_y = none then (hkl1, hkl2)
  else (plot_x.getD [], plot_y.getD [])

/-! ## Orientation-matrix engine (ub.py, class `UBMatrix`) -/

/-- 3x3 real matrices, embedding the numpy 3x3 float arrays of ub.py. -/
abbrev M3 := Matrix (Fin 3) (Fin 3) ℝ

/-- The `conversion_matrices` dict, embedded as an association list from
string keys (as character lists) to 3x3 matrices.  Python dict assignment
`d[k] = v` is embedded as consing `(k, v)` in front (the lookup below takes
the first, i.e. most recent, binding, which agrees with dict overwrite
semantics). -/
abbrev Cache := List (List Char × M3)

/-- First-match association-list lookup, embedding Python dict item access
`self.conversion_matrices[key]` (`none` embeds a raised `KeyError`). -/
def find2? : Cache → List Char → Option M3
  | [], _ => none
  | (k, m) :: rest, key => if k = key then some m else find2? rest key

/-- `np.radians`: degrees to radians, `deg * (π / 180)`. -/
noncomputable def rad (deg : ℝ) : ℝ := deg * (Real.pi / 180)

/-- `UBMatrix.convert` (ub.py lines 174-201), default `axis=1` path applied
to a single column vector.  Faithful to the source, including the slip on
line 185: the `try` block looks up the *literal* key string `'sys'`
(`self.conversion_matrices['sys']`), not the value of the variable `sys`;
only on `KeyError` does it read the two base matrices `sys[0] + 'l'` and
`sys[1] + 'l'`, form `inv(target_to_l) @ source_to_l`, and store that matrix
under `sys` and its inverse under `sys[::-1]` (lines 187-193).  A `KeyError`
raised inside the handler (missing base entry) propagates and is embedded as
`none`.  `np.linalg.inv` is embedded as Mathlib's `Matrix.inv`, which agrees
with it on invertible input; every claim below supplies invertibility
explicitly. -/
noncomputable def convert (cm : Cache) (sys : List Char) (v : Fin 3 → ℝ) :
    Option ((Fin 3 → ℝ) × Cache) :=
  match find2? cm ['s', 'y', 's'] with
  | some m => some (m.mulVec v, cm)
  | none =>
    match sys with
    | s :: t :: _ =>
      match find2? cm [s, 'l'], find2? cm [t, 'l'] with
      | some source_to_l, some target_to_l =>
        let m := target_to_l⁻¹ * source_to_l
        some (m.mulVec v, (sys.reverse, m⁻¹) :: (sys, m) :: cm)
      | _, _ => none
    | _ => none

/-- `UBMatrix._calculate_bl` (ub.py lines 115-139): the real-lattice basis,
columns `a_l, b_l, c_l` built from the six lattice parameters (angles in
degrees) by the standard triclinic formulas. -/
noncomputable def calculate_bl (a b c alphaDeg betaDeg gammaDeg : ℝ) : M3 :=
  let cos_alpha := Real.cos (rad alphaDeg)
  let cos_beta := Real.cos (rad betaDeg)
  let cos_gamma := Real.cos (rad gammaDeg)
  let sin_gamma := Real.sin (rad gammaDeg)
  let tan_gamma := Real.tan (rad gammaDeg)
  let ax := a
  let bx := b * cos_gamma
  let by_ := b * sin_gamma
  let cx := c * cos_beta
  let cy := c * (cos_alpha / sin_gamma - cos_beta / tan_gamma)
  let cz := c * Real.sqrt (1 - (cx ^ 2 + cy ^ 2) / c ^ 2)
  Matrix.of ![![ax, bx, cx], ![0, by_, cy], ![0, 0, cz]]

/-- `UBMatrix._calculate_rl` (ub.py lines 141-143): the reciprocal-lattice
basis `(2 * np.pi * np.linalg.inv(bl)).T`, as a function of the `'bl'` cache
entry. -/
noncomputable def calculate_rl (bl : M3) : M3 := ((2 * Real.pi) • bl⁻¹).transpose

lemma find2?_cons (k : List Char) (m : M3) (rest : Cache) (key : List Char) :
    find2? ((k, m) :: rest) key = if k = key then some m else find2? rest key :=
  rfl

lemma convert_of_miss (cm : Cache) (s t : Char) (rest : List Char)
    (v : Fin 3 → ℝ) (source_to_l target_to_l : M3)
    (hmiss : find2? cm ['s', 'y', 's'] = none)
    (hS : find2? cm [s, 'l'] = some source_to_l)
    (hT : find2? cm [t, 'l'] = some target_to_l) :
    convert cm (s :: t :: rest) v =
      some ((target_to_l⁻¹ * source_to_l).mulVec v,
        ((s :: t :: rest).reverse, (target_to_l⁻¹ * source_to_l)⁻¹) ::
          (s :: t :: rest, target_to_l⁻¹ * source_to_l) :: cm) := by
  simp [convert, hmiss, hS, hT]

/-! ## Axis rotator and momentum-transfer builder
(ub.py, `rotate_around_z` lines 231-258, `angle_to_qs` lines 334-362) -/

/-- A numpy array of shape `3 × n` as its three rows. -/
structure Rows3 where
  x : List ℝ
  y : List ℝ
  z : List ℝ

/-- numpy elementwise binary operation between a row of shape `(n,)` and a
row of shape `(1, m)` under broadcasting: the sizes must be equal or one of
them must be 1, otherwise numpy raises a broadcast `ValueError` (`none`). -/
def bcast (f : ℝ → ℝ → ℝ) (u w : List ℝ) : Option (List ℝ) :=
  if u.length = w.length then some (List.zipWith f u w)
  else if u.length = 1 then some (w.map (f u.headI))
  else if w.length = 1 then some (u.map fun a => f a w.headI)
  else none

/-- `rotate_around_z` (ub.py lines 231-258) in the 2-D `axis=1` form in
which `angle_to_qs` invokes it: the input is a `3 × n` array (rows `x, y,
z`, always of equal length where used) and a `(1, m)` row of angles.
`x*cosines - y*sines` and `x*sines + y*cosines` follow numpy broadcasting
(`bcast`); `np.vstack` then requires the resulting rows and the pass-through
`z` row to have equal lengths, else it raises (`none`). -/
noncomputable def rotate_around_z_batch (m : Rows3) (angles : List ℝ) :
    Option Rows3 :=
  let cosines := angles.map Real.cos
  let sines := angles.map Real.sin
  match bcast (· * ·) m.x cosines, bcast (· * ·) m.y sines,
      bcast (· * ·) m.x sines, bcast (· * ·) m.y cosines with
  | some xc, some ys, some xs, some yc =>
    let r1 := List.zipWith (· - ·) xc ys
    let r2 := List.zipWith (· + ·) xs yc
    if r1.length = m.z.length ∧ r2.length = m.z.length then some ⟨r1, r2, m.z⟩
    else none
  | _, _, _, _ => none

/-- numpy `scalar * array` on a `3 × n` array. -/
noncomputable def scaleRows (c : ℝ) (m : Rows3) : Rows3 :=
  ⟨m.x.map (c * ·), m.y.map (c * ·), m.z.map (c * ·)⟩

/-- numpy `row * array` (shape `(n,) * (3, n)`): scales column `j` by the
`j`-th entry of the row. -/
noncomputable def rowScaleRows (ks : List ℝ) (m : Rows3) : Rows3 :=
  ⟨List.zipWith (· * ·) ks m.x, List.zipWith (· * ·) ks m.y,
    List.zipWith (· * ·) ks m.z⟩

/-- Elementwise difference of two `3 × n` arrays of equal shape
(`kf_in_s - ki_in_s` in `angle_to_qs`; the shapes there are always equal). -/
noncomputable def subRows (p q : Rows3) : Rows3 :=
  ⟨List.zipWith (· - ·) p.x q.x, List.zipWith (· - ·) p.y q.y,
    List.zipWith (· - ·) p.z q.z⟩

/-- `angle_to_qs` (ub.py lines 334-362) with scalar `kf`.  `ki` is a Python
scalar (`Sum.inl`, the `TypeError` branch of lines 352-359) or a sequence
(`Sum.inr`).  The angle inputs `a3`, `a4` (degrees) are rows; a Python
scalar angle is embedded as a singleton list, exactly what
`np.array(x).reshape(1, -1)` produces for it (and `min(len(a3), len(a4))`
raising `TypeError` sets `length = 1 = min(len, 1)` consistently).
`length = min(len(a3), len(a4))` (line 344); `initial_vectors =
np.vstack([-ones, zeros, zeros])` (line 351); then `ki_in_s` per the
`ki`-branching of lines 352-359 (`ki[0]` on an empty sequence raises, hence
`none`), `kf_in_s = kf * rotate_around_z(initial_vectors, radians(a4))`,
and the result is `rotate_around_z(kf_in_s - ki_in_s, -radians(a3))`. -/
noncomputable def angle_to_qs (ki : ℝ ⊕ List ℝ) (kf : ℝ) (a3 a4 : List ℝ) :
    Option Rows3 :=
  let length := min a3.length a4.length
  let initial_vectors : Rows3 :=
    ⟨(List.replicate length (1 : ℝ)).map Neg.neg, List.replicate length 0,
      List.replicate length 0⟩
  let ki_in_s? : Option Rows3 :=
    match ki with
    | Sum.inl k => some (scaleRows k initial_vectors)
    | Sum.inr ks =>
      if ks.length = length then some (rowScaleRows ks initial_vectors)
      else
        match ks with
        | [] => none
        | k0 :: _ => some (scaleRows k0 initial_vectors)
  ki_in_s?.bind fun ki_in_s =>
    (rotate_around_z_batch initial_vectors (a4.map rad)).bind fun rot4 =>
      rotate_around_z_batch (subRows (scaleRows kf rot4) ki_in_s)
        ((a3.map rad).map Neg.neg)

/-- Single-vector rotation about z (the `single_vector` path of
`rotate_around_z`, ub.py lines 249-254), used to phrase the spec's
description of the momentum-transfer algorithm. -/
noncomputable def rotate3 (v : ℝ × ℝ × ℝ) (angle : ℝ) : ℝ × ℝ × ℝ :=
  (v.1 * Real.cos angle - v.2.1 * Real.sin angle,
    v.1 * Real.sin angle + v.2.1 * Real.cos angle, v.2.2)

/-- Scalar multiple of a 3-vector. -/
noncomputable def smul3 (c : ℝ) (v : ℝ × ℝ × ℝ) : ℝ × ℝ × ℝ :=
  (c * v.1, c * v.2.1, c * v.2.2)

/-- Difference of two 3-vectors. -/
noncomputable def sub3 (v w : ℝ × ℝ × ℝ) : ℝ × ℝ × ℝ :=
  (v.1 - w.1, v.2.1 - w.2.1, v.2.2 - w.2.2)

/-- The momentum-transfer algorithm exactly as claim C2 words it: incident
vector `ki` times the negative x-axis unit vector, scattered vector obtained
by rotating the **(positive) unit x-axis** by `a4` and scaling by `kf`, and
`kf_vector - ki_vector` rotated by `-a3`. -/
noncomputable def q_claimed (ki kf t3 t4 : ℝ) : ℝ × ℝ × ℝ :=
  rotate3 (sub3 (smul3 kf (rotate3 (1, 0, 0) (rad t4))) (smul3 ki (-1, 0, 0)))
    (-rad t3)

/-- The amended momentum-transfer description: as `q_claimed`, except that
the scattered vector comes from rotating the **negative** x-axis unit vector
(the incident direction) by `a4`, which is what the code does
(`rotate_around_z(initial_vectors, np.radians(a4))`, ub.py line 360). -/
noncomputable def q_amended (ki kf t3 t4 : ℝ) : ℝ × ℝ × ℝ :=
  rotate3 (sub3 (smul3 kf (rotate3 (-1, 0, 0) (rad t4))) (smul3 ki (-1, 0, 0)))
    (-rad t3)

/-! Elementary list lemmas used to compute `angle_to_qs` in closed form. -/

lemma zipWith_eq_map_zip (f : ℝ → ℝ → ℝ) (l1 : List ℝ) :
    ∀ l2 : List ℝ,
      List.zipWith f l1 l2 = (l1.zip l2).map fun p => f p.1 p.2 := by
  induction l1 with
  | nil => intro l2; simp
  | cons a l1 ih =>
    intro l2
    cases l2 with
    | nil => simp
    | cons b l2 => simp [ih]

lemma replicate_length_eq_map_const {α : Type} (c : ℝ) (l : List α) :
    List.replicate l.length c = l.map fun _ => c := by
  induction l with
  | nil => rfl
  | cons a l ih => simp only [List.length_cons, List.replicate_succ, ih,
      List.map_cons]

lemma scaleRows_maps (c : ℝ) (F G H : ℝ × ℝ → ℝ) (u : List (ℝ × ℝ)) :
    scaleRows c ⟨u.map F, u.map G, u.map H⟩ =
      ⟨u.map fun p => c * F p, u.map fun p => c * G p,
        u.map fun p => c * H p⟩ := by
  simp [scaleRows, List.map_map, Function.comp_def]

lemma subRows_maps (A B C D E F : ℝ × ℝ → ℝ) (u : List (ℝ × ℝ)) :
    subRows ⟨u.map A, u.map B, u.map C⟩ ⟨u.map D, u.map E, u.map F⟩ =
      ⟨u.map fun p => A p - D p, u.map fun p => B p - E p,
        u.map fun p => C p - F p⟩ := by
  simp [subRows, List.zipWith_map, List.zipWith_same]

/-- `rotate_around_z_batch` on rows and angles that are all images of one
base list: the broadcast is the equal-length case and the result rows are
again images of the base list. -/
lemma rotate_batch_maps (F G H R : ℝ × ℝ → ℝ) (u : List (ℝ × ℝ)) :
    rotate_around_z_batch ⟨u.map F, u.map G, u.map H⟩ (u.map R) =
      some ⟨u.map fun p => F p * Real.cos (R p) - G p * Real.sin (R p),
        u.map fun p => F p * Real.sin (R p) + G p * Real.cos (R p),
        u.map H⟩ := by
  have hx : bcast (· * ·) (u.map F) ((u.map R).map Real.cos) =
      some (u.map fun p => F p * Real.cos (R p)) := by
    rw [bcast, if_pos (by simp), List.map_map, List.zipWith_map,
      List.zipWith_same]
    rfl
  have hy : bcast (· * ·) (u.map G) ((u.map R).map Real.sin) =
      some (u.map fun p => G p * Real.sin (R p)) := by
    rw [bcast, if_pos (by simp), List.map_map, List.zipWith_map,
      List.zipWith_same]
    rfl
  have hx' : bcast (· * ·) (u.map F) ((u.map R).map Real.sin) =
      some (u.map fun p => F p * Real.sin (R p)) := by
    rw [bcast, if_pos (by simp), List.map_map, List.zipWith_map,
      List.zipWith_same]
    rfl
  have hy' : bcast (· * ·) (u.map G) ((u.map R).map Real.cos) =
      some (u.map fun p => G p * Real.cos (R p)) := by
    rw [bcast, if_pos (by simp), List.map_map, List.zipWith_map,
      List.zipWith_same]
    rfl
  simp only [rotate_around_z_batch, hx, hy, hx', hy', List.zipWith_map,
    List.zipWith_same]
  rw [if_pos (by simp)]

/-- Closed form of `angle_to_qs` for scalar `ki`, `kf` and equal-length
angle rows: it succeeds and column `j` is `q_amended ki kf (a3 j) (a4 j)`. -/
lemma angle_to_qs_closed (ki kf : ℝ) (a3 a4 : List ℝ)
    (h : a3.length = a4.length) :
    angle_to_qs (Sum.inl ki) kf a3 a4 =
      some ⟨List.zipWith (fun t3 t4 => (q_amended ki kf t3 t4).1) a3 a4,
        List.zipWith (fun t3 t4 => (q_amended ki kf t3 t4).2.1) a3 a4,
        List.zipWith (fun t3 t4 => (q_amended ki kf t3 t4).2.2) a3 a4⟩ := by
  have hlen : min a3.length a4.length = (a3.zip a4).length :=
    (List.length_zip a3 a4).symm
  have hfst : (a3.zip a4).map Prod.fst = a3 :=
    List.map_fst_zip a3 a4 (le_of_eq h)
  have hsnd : (a3.zip a4).map Prod.snd = a4 :=
    List.map_snd_zip a3 a4 (le_of_eq h.symm)
  set u : List (ℝ × ℝ) := a3.zip a4 with hu
  have hinit :
      (⟨(List.replicate (min a3.length a4.length) (1 : ℝ)).map Neg.neg,
        List.replicate (min a3.length a4.length) 0,
        List.replicate (min a3.length a4.length) 0⟩ : Rows3) =
      ⟨u.map fun _ => (-1 : ℝ), u.map fun _ => (0 : ℝ),
        u.map fun _ => (0 : ℝ)⟩ := by
    rw [hlen, replicate_length_eq_map_const]
    rw [replicate_length_eq_map_const]
    rw [List.map_map]
    simp only [Function.comp_def]
  have ha4 : a4.map rad = u.map fun p => rad p.2 := by
    rw [← hsnd, List.map_map]
    simp only [Function.comp_def]
  have ha3 : (a3.map rad).map Neg.neg = u.map fun p => -rad p.1 := by
    rw [← hfst, List.map_map, List.map_map]
    simp only [Function.comp_def]
  simp only [angle_to_qs, hinit, ha4, ha3, scaleRows_maps, Option.some_bind]
  rw [rotate_batch_maps]
  simp only [Option.some_bind, scaleRows_maps, subRows_maps]
  rw [rotate_batch_maps]
  rw [zipWith_eq_map_zip, zipWith_eq_map_zip, zipWith_eq_map_zip]
  simp only [q_amended, rotate3, smul3, sub3, ← hu]

/-! ## Axis labeler (ub.py, `guess_axes_labels` lines 261-287 and
`make_label` lines 290-311), embedded exactly over `ℚ` and `String`. -/

/-- `np.isclose(x, 0)` with numpy defaults: `|x - 0| <= atol + rtol*|0|`,
i.e. `|x| <= 1e-8` (the tolerance written as `mkRat 1 10^8`). -/
def isclose_zero (x : ℚ) : Bool := decide (|x| ≤ mkRat 1 100000000)

/-- Python `list.index(True)` as a partial lookup: index of the first
`true`, or `none` (where Python raises `ValueError`). -/
def firstTrue? : List Bool → Option ℕ
  | [] => none
  | b :: rest => if b then some 0 else (firstTrue? rest).map (· + 1)

/-- Best rational approximation with denominator at most `d` and that exact
denominator bound, numerator by rounding. -/
def approxWithDen (q : ℚ) (d : ℕ) : ℚ := (round (q * d) : ℚ) / d

/-- Models the documented behavior of Python's
`Fraction(x).limit_denominator(10)`: the closest fraction to `q` with
denominator at most 10 (itself, when `q.den ≤ 10`), found here by brute
force over denominators `1..10`.  Tie-breaking at exact midpoints may differ
from CPython's; no branch exercised by the claims depends on it. -/
def limit_denominator_10 (q : ℚ) : ℚ :=
  if q.den ≤ 10 then q
  else
    (List.range 10).foldl
      (fun best d =>
        let cand := approxWithDen q (d + 1)
        if |q - cand| < |q - best| then cand else best)
      (approxWithDen q 1)

/-- Python `str(Fraction)`: `"num/den"`, or just `"num"` for integers. -/
def ratStr (q : ℚ) : String :=
  if q.den = 1 then toString q.num
  else toString q.num ++ ("/") ++ toString q.den

/-- Python `'%.2f' % x` on an exact rational: fixed two decimal digits
(rounding to nearest; CPython rounds the underlying double half-to-even,
which no claim exercises). -/
def fmtF2 (x : ℚ) : String :=
  let n : ℤ := round (x * 100)
  let sign := if n < 0 then ("-") else ("")
  let m := n.natAbs
  sign ++ toString (m / 100) ++ (".") ++
    (if m % 100 < 10 then ("0") else ("")) ++ toString (m % 100)

/-- `make_label` (ub.py lines 290-311), default `return_list=False` form:
per component emit `"0"` for 0, the symbol for 1, `"-" + symbol` for -1,
else a 2-decimal coefficient when the denominator-10 fraction approximation
is off by more than 0.01, else the fraction string; join with spaces and
bracket. -/
def make_label (hkl : List ℚ) (symbol : String) : String :=
  let hkl_fractions := hkl.map limit_denominator_10
  -- `np.abs(x - y) > 0.01` (the tolerance written as `mkRat 1 100`)
  let use_absolute := (hkl_fractions.zip hkl).map fun p =>
    decide (|p.1 - p.2| > mkRat 1 100)
  let label_str_list := (List.range 3).map fun i =>
    let x := hkl.getD i 0
    if x = 0 then ("0")
    else if x = 1 then symbol
    else if x = -1 then ("-") ++ symbol
    else if use_absolute.getD i false then fmtF2 x ++ symbol
    else ratStr (hkl_fractions.getD i 0) ++ symbol
  ("[") ++ String.intercalate (" ") label_str_list ++ ("]")

/-- `guess_axes_labels` (ub.py lines 261-287).  `Except.error` embeds a
raised `ValueError` (with its message; the message
`"ValueError: True is not in list"` stands for the *uncaught* `ValueError`
escaping from `hkl2_nonzero.index(True)` on line 283).  The two
`"unreachable"` branches correspond to `list.index(True)` calls that cannot
fail because the all-zero guard ensures a `True` entry exists. -/
def guess_axes_labels (hkl1 hkl2 : List ℚ) : Except String (String × String) :=
  let labels : List String := [("H"), ("K"), ("L")]
  let hkl1_nonzero := hkl1.map fun a => !(isclose_zero a)
  let hkl2_nonzero := hkl2.map fun a => !(isclose_zero a)
  if hkl1_nonzero.count true = 0 ∨ hkl2_nonzero.count true = 0 then
    .error ("guess axis labels: axis supplied is all zeroes.")
  else if hkl2_nonzero.count true = 1 then
    match firstTrue? hkl2_nonzero, firstTrue? hkl1_nonzero with
    | some iy, some ix =>
      let symbol_y := labels.getD iy ("")
      if labels.getD ix ("") ≠ symbol_y then
        .ok (make_label hkl1 (labels.getD ix ("")), make_label hkl2 symbol_y)
      else
        match firstTrue? (hkl1_nonzero.set ix false) with
        | none => .error ("guess axis labels: supplied axes are co-linear.")
        | some ix2 =>
          .ok (make_label hkl1 (labels.getD ix2 ("")), make_label hkl2 symbol_y)
    | _, _ => .error ("unreachable: the all-zero guard ensures an index")
  else
    match firstTrue? hkl1_nonzero, firstTrue? hkl2_nonzero with
    | some ix, some iy =>
      let symbol_x := labels.getD ix ("")
      let symbol_y := labels.getD iy ("")
      if symbol_x = symbol_y then
        match firstTrue? (hkl2_nonzero.set ix false) with
        | none => .error ("ValueError: True is not in list")
        | some iy2 =>
          .ok (make_label hkl1 symbol_x, make_label hkl2 (labels.getD iy2 ("")))
      else .ok (make_label hkl1 symbol_x, make_label hkl2 symbol_y)
    | _, _ => .error ("unreachable: the all-zero guard ensures an index")

/-! ## Theorems -/

/-- C4: for positive edge lengths `a b c`, `find_triangle_angles` fails with
the "triangle does not close" error iff one of the three law-of-cosines
cosines has magnitude strictly greater than 1; otherwise it returns
`(arccos aa, arccos bb, arccos cc)` in that fixed order, and each returned
angle is a genuine real number in `[0, π]` whose cosine recovers the
corresponding cosine value (no NaN/complex result). -/
theorem find_triangle_angles_spec (a b c : ℝ)
    (ha : 0 < a) (hb : 0 < b) (hc : 0 < c) :
    (find_triangle_angles a b c = none ↔
      1 < |tri_aa a b c| ∨ 1 < |tri_bb a b c| ∨ 1 < |tri_cc a b c|) ∧
    (¬(1 < |tri_aa a b c| ∨ 1 < |tri_bb a b c| ∨ 1 < |tri_cc a b c|) →
      find_triangle_angles a b c =
        some (Real.arccos (tri_aa a b c), Real.arccos (tri_bb a b c),
          Real.arccos (tri_cc a b c)) ∧
      Real.cos (Real.arccos (tri_aa a b c)) = tri_aa a b c ∧
      Real.cos (Real.arccos (tri_bb a b c)) = tri_bb a b c ∧
      Real.cos (Real.arccos (tri_cc a b c)) = tri_cc a b c ∧
      Real.arccos (tri_aa a b c) ∈ Set.Icc 0 Real.pi ∧
      Real.arccos (tri_bb a b c) ∈ Set.Icc 0 Real.pi ∧
      Real.arccos (tri_cc a b c) ∈ Set.Icc 0 Real.pi) := by
  constructor
  · constructor
    · intro hnone
      by_contra hcond
      rw [find_triangle_angles, if_neg hcond] at hnone
      exact Option.some_ne_none _ hnone
    · intro hcond
      rw [find_triangle_angles, if_pos hcond]
  · intro hcond
    push_neg at hcond
    obtain ⟨h1, h2, h3⟩ := hcond
    rw [abs_le] at h1 h2 h3
    refine ⟨?_, ?_, ?_, ?_, ?_, ?_, ?_⟩
    · rw [find_triangle_angles, if_neg]
      push_neg
      rw [abs_le, abs_le, abs_le]
      exact ⟨h1, h2, h3⟩
    · exact Real.cos_arccos h1.1 h1.2
    · exact Real.cos_arccos h2.1 h2.2
    · exact Real.cos_arccos h3.1 h3.2
    · exact ⟨Real.arccos_nonneg _, Real.arccos_le_pi _⟩
    · exact ⟨Real.arccos_nonneg _, Real.arccos_le_pi _⟩
    · exact ⟨Real.arccos_nonneg _, Real.arccos_le_pi _⟩

/-- Witness for C4 at the 3-4-5 triangle: the hypotheses hold and the
conclusion is obtained by applying `find_triangle_angles_spec`. -/
theorem find_triangle_angles_spec_witness :
    (find_triangle_angles 3 4 5 = none ↔
      1 < |tri_aa 3 4 5| ∨ 1 < |tri_bb 3 4 5| ∨ 1 < |tri_cc 3 4 5|) ∧
    (¬(1 < |tri_aa 3 4 5| ∨ 1 < |tri_bb 3 4 5| ∨ 1 < |tri_cc 3 4 5|) →
      find_triangle_angles 3 4 5 =
        some (Real.arccos (tri_aa 3 4 5), Real.arccos (tri_bb 3 4 5),
          Real.arccos (tri_cc 3 4 5)) ∧
      Real.cos (Real.arccos (tri_aa 3 4 5)) = tri_aa 3 4 5 ∧
      Real.cos (Real.arccos (tri_bb 3 4 5)) = tri_bb 3 4 5 ∧
      Real.cos (Real.arccos (tri_cc 3 4 5)) = tri_cc 3 4 5 ∧
      Real.arccos (tri_aa 3 4 5) ∈ Set.Icc 0 Real.pi ∧
      Real.arccos (tri_bb 3 4 5) ∈ Set.Icc 0 Real.pi ∧
      Real.arccos (tri_cc 3 4 5) ∈ Set.Icc 0 Real.pi) :=
  find_triangle_angles_spec 3 4 5 (by norm_num) (by norm_num) (by norm_num)

/-- C10: for positive `a b` and the exactly degenerate third edge `c = a + b`
(all three cosines land exactly on the boundary, e.g. `(1,1,2)`), the strict
`abs > 1` check passes and the solver returns the boundary angles
`(0, 0, π)` instead of failing. -/
theorem find_triangle_angles_degenerate (a b : ℝ) (ha : 0 < a) (hb : 0 < b) :
    find_triangle_angles a b (a + b) = some (0, 0, Real.pi) := by
  have hab : a + b ≠ 0 := by positivity
  have haa : tri_aa a b (a + b) = 1 := by
    rw [tri_aa]
    field_simp
    ring
  have hbb : tri_bb a b (a + b) = 1 := by
    rw [tri_bb]
    field_simp
    ring
  have hcc : tri_cc a b (a + b) = -1 := by
    rw [tri_cc]
    field_simp
    ring
  rw [find_triangle_angles, haa, hbb, hcc, if_neg]
  · rw [Real.arccos_one, Real.arccos_neg_one]
  · push_neg
    norm_num

/-- Witness for C10 at `(a, b, c) = (1, 1, 2)`: the solver returns
`(0, 0, π)`. -/
theorem find_triangle_angles_degenerate_witness :
    find_triangle_angles 1 1 2 = some (0, 0, Real.pi) := by
  have h := find_triangle_angles_degenerate 1 1 (by norm_num) (by norm_num)
  norm_num at h
  exact h

/-- A conversion-matrix cache holding exactly the five base entries
`'ll', 'bl', 'rl', 'sl', 'pl'` (as after `update_conversion_matrices`),
instantiated with identity base matrices (the cubic lattice
`a = b = c = 1`, `α = β = γ = 90`). -/
noncomputable def baseCache : Cache :=
  [(['l', 'l'], 1), (['b', 'l'], 1), (['r', 'l'], 1), (['s', 'l'], 1),
    (['p', 'l'], 1)]

lemma baseCache_miss : find2? baseCache ['s', 'y', 's'] = none := by
  simp [baseCache, find2?]

lemma baseCache_ll : find2? baseCache ['l', 'l'] = some 1 := by
  simp [baseCache, find2?]

lemma baseCache_bl : find2? baseCache ['b', 'l'] = some 1 := by
  simp [baseCache, find2?]

lemma baseCache_rl : find2? baseCache ['r', 'l'] = some 1 := by
  simp [baseCache, find2?]

lemma baseCache_sl : find2? baseCache ['s', 'l'] = some 1 := by
  simp [baseCache, find2?]

/-- `baseCache` with an additional (stale) entry for the ordered pair
`'rs'`: the cached matrix `2 • 1` disagrees with the transform
`inv(sl) @ rl = 1` recomputable from the base entries. -/
noncomputable def cacheWithPair : Cache := (['r', 's'], (2 : ℝ) • 1) :: baseCache

/-- C1 (code bug exhibit): the cache holds an entry for the requested ordered
pair `'rs'`, yet `convert` does not use it — because line 185 looks up the
literal key `'sys'`, the `KeyError` branch recomputes
`inv(target_to_l) @ source_to_l` on every call.  Here the cached matrix is
`2 • 1`, whose action on `![1,0,0]` differs from the returned vector, which
is the recomputed (identity) transform applied to `![1,0,0]`. -/
theorem convert_ignores_cached_pair :
    find2? cacheWithPair ['r', 's'] = some ((2 : ℝ) • 1) ∧
    (convert cacheWithPair ['r', 's'] ![1, 0, 0]).map Prod.fst =
      some ![1, 0, 0] ∧
    ((2 : ℝ) • (1 : M3)).mulVec ![1, 0, 0] ≠ ![1, 0, 0] := by
  refine ⟨by simp [cacheWithPair, find2?], ?_, ?_⟩
  · have hmiss : find2? cacheWithPair ['s', 'y', 's'] = none := by
      simp [cacheWithPair, find2?, baseCache]
    have hR : find2? cacheWithPair ['r', 'l'] = some 1 := by
      simp [cacheWithPair, find2?, baseCache]
    have hS : find2? cacheWithPair ['s', 'l'] = some 1 := by
      simp [cacheWithPair, find2?, baseCache]
    rw [convert_of_miss cacheWithPair 'r' 's' [] ![1, 0, 0] 1 1 hmiss hR hS]
    simp
  · intro h
    have h0 := congrFun h 0
    rw [Matrix.smul_mulVec_assoc, Matrix.one_mulVec] at h0
    simp at h0

/-- C5: round trip.  For any cache state whose base entries for systems `a`
and `b` are the invertible matrices `A`, `B` (with the `'ll'` entry the
identity, as `update_conversion_matrices` guarantees, and no entry under the
literal key `'sys'`), converting `v` from `a` to `b` and the result back
from `b` to `a` returns exactly `v`. -/
theorem convert_roundtrip (cm : Cache) (a b : Char) (A B : M3) (v : Fin 3 → ℝ)
    (hmiss : find2? cm ['s', 'y', 's'] = none)
    (hll : find2? cm ['l', 'l'] = some 1)
    (hA : find2? cm [a, 'l'] = some A)
    (hB : find2? cm [b, 'l'] = some B)
    (hdA : IsUnit A.det) (hdB : IsUnit B.det) :
    ∃ w cm' cm'', convert cm [a, b] v = some (w, cm') ∧
      convert cm' [b, a] w = some (v, cm'') := by
  have hrev : ∀ x y : Char, ([x, y] : List Char).reverse = [y, x] :=
    fun _ _ => rfl
  have h1 := convert_of_miss cm a b [] v A B hmiss hA hB
  rw [hrev] at h1
  set m : M3 := B⁻¹ * A with hm
  set cm' : Cache := ([b, a], m⁻¹) :: ([a, b], m) :: cm with hcm'
  have hmiss' : find2? cm' ['s', 'y', 's'] = none := by
    rw [hcm', find2?_cons, if_neg (by simp), find2?_cons, if_neg (by simp)]
    exact hmiss
  refine ⟨m.mulVec v, cm', ?_⟩
  by_cases hb' : b = 'l'
  · by_cases ha' : a = 'l'
    · subst ha' hb'
      have hA1 : A = 1 := by rw [hA] at hll; exact Option.some.inj hll
      have hB1 : B = 1 := by rw [hB] at hll; exact Option.some.inj hll
      have hS : find2? cm' ['l', 'l'] = some m⁻¹ := by
        rw [hcm', find2?_cons, if_pos rfl]
      have h2 := convert_of_miss cm' 'l' 'l' [] (m.mulVec v) m⁻¹ m⁻¹ hmiss' hS hS
      have hm1 : m = 1 := by rw [hm, hA1, hB1, inv_one, one_mul]
      have hv : (m⁻¹⁻¹ * m⁻¹).mulVec (m.mulVec v) = v := by
        rw [hm1]; simp
      exact ⟨_, h1, by rw [h2, hv]⟩
    · subst hb'
      have hB1 : B = 1 := by rw [hB] at hll; exact Option.some.inj hll
      have hm1 : m = A := by rw [hm, hB1, inv_one, one_mul]
      have hS : find2? cm' ['l', 'l'] = some 1 := by
        rw [hcm', find2?_cons, if_neg (by simp [ha']), find2?_cons,
          if_neg (by simp [ha']), hll]
      have hT : find2? cm' [a, 'l'] = some m := by
        rw [hcm', find2?_cons, if_neg (by simp [ha']), find2?_cons, if_pos rfl]
      have h2 := convert_of_miss cm' 'l' a [] (m.mulVec v) 1 m hmiss' hS hT
      have hv : (m⁻¹ * 1).mulVec (m.mulVec v) = v := by
        rw [mul_one, hm1, Matrix.mulVec_mulVec, Matrix.nonsing_inv_mul A hdA,
          Matrix.one_mulVec]
      exact ⟨_, h1, by rw [h2, hv]⟩
  · by_cases ha' : a = 'l'
    · subst ha'
      have hA1 : A = 1 := by rw [hA] at hll; exact Option.some.inj hll
      have hm1 : m = B⁻¹ := by rw [hm, hA1, mul_one]
      have hS : find2? cm' [b, 'l'] = some m⁻¹ := by
        rw [hcm', find2?_cons, if_pos rfl]
      have hT : find2? cm' ['l', 'l'] = some 1 := by
        rw [hcm', find2?_cons, if_neg (by simp [hb']), find2?_cons,
          if_neg (by simp [hb']), hll]
      have h2 := convert_of_miss cm' b 'l' [] (m.mulVec v) m⁻¹ 1 hmiss' hS hT
      have hv : ((1 : M3)⁻¹ * m⁻¹).mulVec (m.mulVec v) = v := by
        rw [inv_one, one_mul, hm1, Matrix.nonsing_inv_nonsing_inv B hdB,
          Matrix.mulVec_mulVec, Matrix.mul_nonsing_inv B hdB, Matrix.one_mulVec]
      exact ⟨_, h1, by rw [h2, hv]⟩
    · have hS : find2? cm' [b, 'l'] = some B := by
        rw [hcm', find2?_cons, if_neg (by simp [ha']), find2?_cons,
          if_neg (by simp [hb']), hB]
      have hT : find2? cm' [a, 'l'] = some A := by
        rw [hcm', find2?_cons, if_neg (by simp [ha']), find2?_cons,
          if_neg (by simp [hb']), hA]
      have h2 := convert_of_miss cm' b a [] (m.mulVec v) B A hmiss' hS hT
      have hv : (A⁻¹ * B).mulVec (m.mulVec v) = v := by
        rw [hm, Matrix.mulVec_mulVec]
        have hone : A⁻¹ * B * (B⁻¹ * A) = 1 := by
          rw [mul_assoc, ← mul_assoc B B⁻¹ A, Matrix.mul_nonsing_inv B hdB,
            one_mul, Matrix.nonsing_inv_mul A hdA]
        rw [hone, Matrix.one_mulVec]
      exact ⟨_, h1, by rw [h2, hv]⟩

/-- Witness for C5: on `baseCache` (identity base matrices), converting
`![1,2,3]` from the reciprocal system `'r'` to the sample system `'s'` and
back returns `![1,2,3]`. -/
theorem convert_roundtrip_witness :
    ∃ w cm' cm'', convert baseCache ['r', 's'] ![1, 2, 3] = some (w, cm') ∧
      convert cm' ['s', 'r'] w = some (![1, 2, 3], cm'') :=
  convert_roundtrip baseCache 'r' 's' 1 1 ![1, 2, 3] baseCache_miss
    baseCache_ll baseCache_rl baseCache_sl (by simp) (by simp)

/-- C6: converting a vector from the real-lattice system `'b'` to itself
(`sys = 'bb'`) returns the vector exactly: the computed transform is
`inv(bl) @ bl = 1` (over the real-number embedding). -/
theorem convert_same_system_id (cm : Cache) (B : M3) (v : Fin 3 → ℝ)
    (hmiss : find2? cm ['s', 'y', 's'] = none)
    (hB : find2? cm ['b', 'l'] = some B)
    (hdB : IsUnit B.det) :
    (convert cm ['b', 'b'] v).map Prod.fst = some v := by
  rw [convert_of_miss cm 'b' 'b' [] v B B hmiss hB hB]
  rw [Matrix.nonsing_inv_mul B hdB, Matrix.one_mulVec]
  rfl

/-- Witness for C6 on `baseCache` with `v = ![1,2,3]`. -/
theorem convert_same_system_id_witness :
    (convert baseCache ['b', 'b'] ![1, 2, 3]).map Prod.fst = some ![1, 2, 3] :=
  convert_same_system_id baseCache 1 ![1, 2, 3] baseCache_miss baseCache_bl
    (by simp)

/-- C7: reciprocal duality.  For any lattice parameters whose real-lattice
basis `R = calculate_bl ...` is invertible (a valid lattice description),
the reciprocal basis `Q = calculate_rl R = (2π · R⁻¹)ᵀ` satisfies
`Rᵀ · Q = 2π · I` exactly over the real-number embedding. -/
theorem bl_rl_duality (a b c alphaDeg betaDeg gammaDeg : ℝ)
    (h : IsUnit (calculate_bl a b c alphaDeg betaDeg gammaDeg).det) :
    (calculate_bl a b c alphaDeg betaDeg gammaDeg).transpose *
      calculate_rl (calculate_bl a b c alphaDeg betaDeg gammaDeg) =
      (2 * Real.pi) • (1 : M3) := by
  rw [calculate_rl, Matrix.transpose_smul, mul_smul_comm,
    ← Matrix.transpose_mul, Matrix.nonsing_inv_mul _ h, Matrix.transpose_one]

/-- The cubic lattice `a = b = c = 1`, `α = β = γ = 90°` has the identity as
real-lattice basis. -/
lemma calculate_bl_cubic : calculate_bl 1 1 1 90 90 90 = 1 := by
  have h90 : rad 90 = Real.pi / 2 := by rw [rad]; ring
  ext i j
  fin_cases i <;> fin_cases j <;>
    simp [calculate_bl, h90, Real.cos_pi_div_two, Real.sin_pi_div_two,
      Real.tan_pi_div_two, Matrix.one_apply, Matrix.vecHead, Matrix.vecTail]

/-- Witness for C7 at the cubic lattice `(1, 1, 1, 90, 90, 90)`. -/
theorem bl_rl_duality_witness :
    (calculate_bl 1 1 1 90 90 90).transpose *
      calculate_rl (calculate_bl 1 1 1 90 90 90) = (2 * Real.pi) • (1 : M3) :=
  bl_rl_duality 1 1 1 90 90 90
    (by rw [calculate_bl_cubic, Matrix.det_one]; exact isUnit_one)

/-- C2 (amended): for scalar `ki`, `kf` and equal-length angle rows (in
degrees), `angle_to_qs` succeeds and column `j` of the returned sample-frame
`3 × N` array is exactly the amended spec algorithm `q_amended` at
`(a3 j, a4 j)`: incident vector `ki` times the negative x-axis unit vector,
scattered vector `kf` times the **negative x-axis unit vector rotated by
a4**, and `kf_vector - ki_vector` rotated by `-a3`. -/
theorem angle_to_qs_matches_spec (ki kf : ℝ) (a3 a4 : List ℝ)
    (h : a3.length = a4.length) :
    angle_to_qs (Sum.inl ki) kf a3 a4 =
      some ⟨List.zipWith (fun t3 t4 => (q_amended ki kf t3 t4).1) a3 a4,
        List.zipWith (fun t3 t4 => (q_amended ki kf t3 t4).2.1) a3 a4,
        List.zipWith (fun t3 t4 => (q_amended ki kf t3 t4).2.2) a3 a4⟩ :=
  angle_to_qs_closed ki kf a3 a4 h

/-- Witness for C2 at `ki = 1`, `kf = 2`, `a3 = [10]`, `a4 = [20]`. -/
theorem angle_to_qs_matches_spec_witness :
    angle_to_qs (Sum.inl 1) 2 [10] [20] =
      some ⟨List.zipWith (fun t3 t4 => (q_amended 1 2 t3 t4).1) [10] [20],
        List.zipWith (fun t3 t4 => (q_amended 1 2 t3 t4).2.1) [10] [20],
        List.zipWith (fun t3 t4 => (q_amended 1 2 t3 t4).2.2) [10] [20]⟩ :=
  angle_to_qs_matches_spec 1 2 [10] [20] rfl

/-- C2 counterexample: at `ki = kf = 1`, `a3 = a4 = 0`, the code returns the
zero vector (column), while the claim's algorithm (scattered vector from
rotating the **positive** unit x-axis) yields `(2, 0, 0)`; so the builder
does not implement the claimed algorithm. -/
theorem angle_to_qs_claim_counterexample :
    angle_to_qs (Sum.inl 1) 1 [0] [0] = some ⟨[0], [0], [0]⟩ ∧
    q_claimed 1 1 0 0 = (2, 0, 0) ∧
    angle_to_qs (Sum.inl 1) 1 [0] [0] ≠
      some ⟨[(q_claimed 1 1 0 0).1], [(q_claimed 1 1 0 0).2.1],
        [(q_claimed 1 1 0 0).2.2]⟩ := by
  have h1 : angle_to_qs (Sum.inl 1) 1 [0] [0] = some ⟨[0], [0], [0]⟩ := by
    rw [angle_to_qs_closed 1 1 [0] [0] rfl]
    norm_num [q_amended, rotate3, smul3, sub3, rad]
  have h2 : q_claimed 1 1 0 0 = (2, 0, 0) := by
    norm_num [q_claimed, rotate3, smul3, sub3, rad]
  refine ⟨h1, h2, ?_⟩
  rw [h1, h2]
  simp

/-- C3 (amended): for equal-length angle rows the momentum-transfer builder
succeeds and returns a `3 × N` array whose batch length `N` is
`min(len(a3), len(a4))`, i.e. the common length. -/
theorem angle_to_qs_batch_length (ki kf : ℝ) (a3 a4 : List ℝ)
    (h : a3.length = a4.length) :
    ∃ q : Rows3, angle_to_qs (Sum.inl ki) kf a3 a4 = some q ∧
      q.x.length = min a3.length a4.length ∧
      q.y.length = min a3.length a4.length ∧
      q.z.length = min a3.length a4.length := by
  refine ⟨_, angle_to_qs_closed ki kf a3 a4 h, ?_, ?_, ?_⟩ <;>
    simp [List.length_zipWith]

/-- Witness for C3 at `a3 = [0, 90]`, `a4 = [45, 60]` (batch length 2). -/
theorem angle_to_qs_batch_length_witness :
    ∃ q : Rows3, angle_to_qs (Sum.inl 1) 1 [0, 90] [45, 60] = some q ∧
      q.x.length = 2 ∧ q.y.length = 2 ∧ q.z.length = 2 := by
  have h := angle_to_qs_batch_length 1 1 [0, 90] [45, 60] rfl
  simpa using h

/-- C3 counterexample: for the unequal-length pair `a3 = [0,0]` (length 2),
`a4 = [0,0,0]` (length 3), the first `rotate_around_z` call hits a numpy
broadcast error (`(2,) * (1,3)`), so `angle_to_qs` fails rather than
returning a `3 × 2` array. -/
theorem angle_to_qs_unequal_lengths_error :
    angle_to_qs (Sum.inl 1) 1 [0, 0] [0, 0, 0] = none := by
  norm_num [angle_to_qs, rotate_around_z_batch, bcast, scaleRows]

/-- Decidable equality for labeler results, so that concrete runs of
`guess_axes_labels` can be checked by kernel evaluation. -/
instance : DecidableEq (Except String (String × String)) := fun
  | .error a, .error b =>
    if h : a = b then .isTrue (by rw [h]) else .isFalse (by simp [h])
  | .error _, .ok _ => .isFalse (by simp)
  | .ok _, .error _ => .isFalse (by simp)
  | .ok a, .ok b =>
    if h : a = b then .isTrue (by rw [h]) else .isFalse (by simp [h])

/-- C8 counterexample: `guess_axes_labels([1,0,0],[0,1,0])` returns
`("[H 0 0]", "[0 K 0]")` — zero components are rendered and joined — not
the claimed `("[H]", "[K]")`. -/
theorem guess_axes_labels_claim_counterexample :
    guess_axes_labels [1, 0, 0] [0, 1, 0] =
      .ok (("[H 0 0]"), ("[0 K 0]")) ∧
    ((("[H 0 0]"), ("[0 K 0]")) : String × String) ≠ (("[H]"), ("[K]")) := by
  exact ⟨by decide, by decide⟩

/-- C8 (amended): `guess_axes_labels([1,0,0],[0,1,0])` returns
`("[H 0 0]", "[0 K 0]")` (symbols `H` and `K`, zero components rendered as
`"0"`), and `guess_axes_labels([1,0,0],[1,0,0])` fails with the co-linear
axes error after demoting the first axis's claim to the shared symbol and
finding no remaining nonzero component. -/
theorem guess_axes_labels_amended :
    guess_axes_labels [1, 0, 0] [0, 1, 0] =
      .ok (("[H 0 0]"), ("[0 K 0]")) ∧
    guess_axes_labels [1, 0, 0] [1, 0, 0] =
      .error ("guess axis labels: supplied axes are co-linear.") :=
  ⟨by decide, by decide⟩

/-- C9: when exactly one of the optional plot-axis arguments is supplied, the
constructor silently ignores it: `_plot_x`/`_plot_y_nominal` are set to
`hkl1`/`hkl2`, exactly as when neither is supplied — the two defaults are
coupled. -/
theorem init_plot_axes_coupled (hkl1 hkl2 px py : List ℚ) :
    init_plot_axes hkl1 hkl2 (some px) none = (hkl1, hkl2) ∧
    init_plot_axes hkl1 hkl2 none (some py) = (hkl1, hkl2) ∧
    init_plot_axes hkl1 hkl2 (some px) none = init_plot_axes hkl1 hkl2 none none ∧
    init_plot_axes hkl1 hkl2 none (some py) = init_plot_axes hkl1 hkl2 none none := by
  refine ⟨?_, ?_, ?_, ?_⟩ <;> simp [init_plot_axes]

end Multiflexx
